import Mathlib

/-!
Verification of the `tosc` distributed shared-object store against its
natural-language specification.  The Python source is shallowly embedded:
dictionaries become association lists with first-match lookup, stateful
methods become explicit state-passing functions, and fallible calls return
`Except`/`Option`.  Machine details that cannot affect the verified claims
(threads, the pickle byte format) are modelled as structure-preserving
parameters.
-/

namespace Tosc

/-! ## Association-list dictionaries

Python `dict`s keyed by `xid` are embedded as association lists.  Insertion
prepends, lookup takes the first match, so later insertions shadow earlier
ones exactly as `d[k] = v` overwrites. -/

abbrev AList (α : Type) := List (Nat × α)

def lookupA {α : Type} (m : AList α) (k : Nat) : Option α :=
  match m with
  | [] => none
  | (k', v) :: rest => if k' = k then some v else lookupA rest k

def insertA {α : Type} (m : AList α) (k : Nat) (v : α) : AList α :=
  (k, v) :: m

def memA {α : Type} (m : AList α) (k : Nat) : Bool :=
  (lookupA m k).isSome

theorem lookupA_insertA_self {α : Type} (m : AList α) (k : Nat) (v : α) :
    lookupA (insertA m k v) k = some v := by
  simp [insertA, lookupA]

theorem lookupA_insertA_ne {α : Type} (m : AList α) (k k' : Nat) (v : α)
    (h : k ≠ k') : lookupA (insertA m k v) k' = lookupA m k' := by
  simp [insertA, lookupA, h]

/-! ## Transaction engine (`src/tosc/transaction.py`)

`Transaction.objs` maps each traced `xid` to the pair
`(proxy, pre-image)`.  The proxy's mutable `subobj` slot is carried in the
trace entry itself (`proxySub`); the committed object map carries the
`subobj` of the map-entry `DObject` for each `xid`.  Sub-object values are
abstracted to `Int`. -/

abbrev Val := Int

structure TEntry where
  xid : Nat
  proxySub : Val
  prev : Val
  deriving Repr, DecidableEq

structure TState where
  objmap : AList Val
  objs : List TEntry
  deriving Repr, DecidableEq

/-- The loop `for xid, val in objs.items (): outmap[xid].subobj = f (val)`
shared by `rollback` (installing pre-images) and `commit` (installing the
proxies' tentative sub-objects). -/
def installFold (f : TEntry → Val) (objs : List TEntry) (m : AList Val) : AList Val :=
  objs.foldl (fun acc e => insertA acc e.xid (f e)) m

/-- Model of `Transaction.rollback` (transaction.py:31-38): for every traced pair,
restore both the object-map entry's `subobj` and the proxy's `subobj` to the
pre-image. -/
def rollback (st : TState) : TState :=
  { objmap := installFold TEntry.prev st.objs st.objmap
    objs := st.objs.map (fun e => { e with proxySub := e.prev }) }

/-- Result of `Transaction.commit`: the success flag, the post-state, and
the version handed to `Manager.try_write` (`none` when no backend write was
issued at all). -/
structure CommitResult where
  ok : Bool
  st : TState
  writeCall : Option Nat
  deriving Repr, DecidableEq

/-- Outcome of the underlying `Manager.try_write` call: `.error ()` models
the backend raising, `.ok b` the CAS returning `b`. -/
abbrev TWOutcome := Except Unit Bool

/-- Model of `Transaction.commit` (transaction.py:40-62).  With `objs` empty it
returns `True` immediately.  Otherwise it installs every traced proxy's
current `subobj` into the committed map, issues `try_write` with the
transaction's opening version (an exception counts as failure), and rolls
back on failure. -/
def commit (st : TState) (version : Nat) (tw : TWOutcome) : CommitResult :=
  if st.objs.isEmpty then
    ⟨true, st, none⟩
  else
    let st' : TState :=
      { st with objmap := installFold TEntry.proxySub st.objs st.objmap }
    let ret : Bool := match tw with | .ok b => b | .error _ => false
    if ret then ⟨true, st', some version⟩
    else ⟨false, rollback st', some version⟩

inductive TErr where
  | transactionError
  deriving Repr, DecidableEq

/-- Model of `Transaction.__exit__` at outermost depth with no exception
(transaction.py:85-90): commit, unlink (clear `objs`), and raise
`TransactionError` when the commit failed. -/
def exitNoExc (st : TState) (version : Nat) (tw : TWOutcome) :
    Except (TErr × CommitResult) (TState × Option Nat) :=
  let c := commit st version tw
  if c.ok then .ok ({ c.st with objs := [] }, c.writeCall)
  else .error (.transactionError, c)

/-- Model of `Transaction.__exit__` at outermost depth with a pending exception
(transaction.py:80-84): rollback, unlink.  The second component is the
value returned by `__exit__` (`False` means the exception propagates); the
third records the proxies' final `subobj` values after the rollback. -/
def exitExc (st : TState) : TState × Bool × List TEntry :=
  let r := rollback st
  ({ r with objs := [] }, false, r.objs)

theorem find?_xid_of_mem (l : List TEntry) (e : TEntry) (he : e ∈ l)
    (hnd : (l.map TEntry.xid).Nodup) :
    l.find? (fun a => a.xid == e.xid) = some e := by
  induction l with
  | nil => cases he
  | cons a rest ih =>
    simp only [List.map_cons, List.nodup_cons] at hnd
    obtain ⟨hax, hrest⟩ := hnd
    rcases List.mem_cons.mp he with rfl | hmem
    · simp [List.find?_cons]
    · have hne : ¬((a.xid == e.xid) = true) := by
        simp only [beq_iff_eq]
        intro hcontra
        exact hax (hcontra ▸ List.mem_map_of_mem TEntry.xid hmem)
      rw [List.find?_cons_of_neg (p := fun x : TEntry => x.xid == e.xid) _ hne]
      exact ih hmem hrest

theorem find?_xid_eq_none (l : List TEntry) (k : Nat)
    (h : ∀ e ∈ l, e.xid ≠ k) :
    l.find? (fun a => a.xid == k) = none := by
  rw [List.find?_eq_none]
  intro e he
  simpa using h e he

theorem lookupA_installFold (f : TEntry → Val) (objs : List TEntry)
    (m : AList Val) (k : Nat) (hnd : (objs.map TEntry.xid).Nodup) :
    lookupA (installFold f objs m) k =
      match objs.find? (fun e => e.xid == k) with
      | some e => some (f e)
      | none => lookupA m k := by
  unfold installFold
  induction objs generalizing m with
  | nil => simp
  | cons a rest ih =>
    simp only [List.map_cons, List.nodup_cons] at hnd
    obtain ⟨hax, hrest⟩ := hnd
    simp only [List.foldl_cons]
    rw [ih _ hrest]
    by_cases hk : a.xid = k
    · subst hk
      have hfind : rest.find? (fun e => e.xid == a.xid) = none := by
        apply find?_xid_eq_none
        intro e he hcontra
        exact hax (hcontra ▸ List.mem_map_of_mem TEntry.xid he)
      rw [hfind, List.find?_cons_of_pos _ (by simp)]
      exact lookupA_insertA_self m a.xid (f a)
    · rw [List.find?_cons_of_neg _ (by simpa using hk)]
      cases hfind : rest.find? (fun e => e.xid == k) with
      | some e => rfl
      | none => exact lookupA_insertA_ne m a.xid k (f a) hk

theorem lookupA_installFold_mem (f : TEntry → Val) (objs : List TEntry)
    (m : AList Val) (e : TEntry) (he : e ∈ objs)
    (hnd : (objs.map TEntry.xid).Nodup) :
    lookupA (installFold f objs m) e.xid = some (f e) := by
  rw [lookupA_installFold f objs m e.xid hnd, find?_xid_of_mem objs e he hnd]

theorem lookupA_installFold_not_mem (f : TEntry → Val) (objs : List TEntry)
    (m : AList Val) (k : Nat) (hnd : (objs.map TEntry.xid).Nodup)
    (h : ∀ e ∈ objs, e.xid ≠ k) :
    lookupA (installFold f objs m) k = lookupA m k := by
  rw [lookupA_installFold f objs m k hnd, find?_xid_eq_none objs k h]

/-- C1: on an exception-free outermost transaction exit, an empty traced-map
commits trivially (no backend write, no error); a non-empty one installs
every traced proxy's current `subobj` into its `objmap` entry and calls
`Manager.try_write` with the opening version, and if the CAS returns false
or the backend raises, the transaction is rolled back (every traced entry
back to its pre-image) and `TransactionError` is raised. -/
theorem commit_empty_trivial_nonempty_cas_failure_rolls_back
    (st : TState) (version : Nat) (tw : TWOutcome) :
    (st.objs = [] → exitNoExc st version tw = .ok (st, none)) ∧
    (st.objs ≠ [] → (commit st version tw).writeCall = some version) ∧
    (st.objs ≠ [] → (st.objs.map TEntry.xid).Nodup →
      ∀ e ∈ st.objs,
        lookupA (commit st version (.ok true)).st.objmap e.xid = some e.proxySub) ∧
    (st.objs ≠ [] → (tw = .ok false ∨ tw = .error ()) →
      (commit st version tw).ok = false ∧
      ((st.objs.map TEntry.xid).Nodup →
        ∀ e ∈ st.objs, lookupA (commit st version tw).st.objmap e.xid = some e.prev) ∧
      ∃ c, exitNoExc st version tw = .error (.transactionError, c)) := by
  refine ⟨?_, ?_, ?_, ?_⟩
  · intro h
    obtain ⟨om, objs⟩ := st
    simp only at h
    subst h
    simp [exitNoExc, commit]
  · intro h
    have hne : ¬st.objs.isEmpty := by simpa [List.isEmpty_iff] using h
    simp [commit, hne]
    split <;> rfl
  · intro h _ e he
    have hne : ¬st.objs.isEmpty := by simpa [List.isEmpty_iff] using h
    simp only [commit, hne, if_false, Bool.false_eq_true]
    exact lookupA_installFold_mem TEntry.proxySub st.objs st.objmap e he (by assumption)
  · intro h htw
    have hne : ¬st.objs.isEmpty := by simpa [List.isEmpty_iff] using h
    have key : commit st version tw =
        ⟨false, rollback { st with objmap := installFold TEntry.proxySub st.objs st.objmap },
          some version⟩ := by
      rcases htw with rfl | rfl <;> simp [commit, hne]
    refine ⟨by rw [key], ?_, ?_⟩
    · intro hnd e he
      rw [key]
      simp only [rollback]
      exact lookupA_installFold_mem TEntry.prev st.objs _ e he hnd
    · refine ⟨commit st version tw, ?_⟩
      have hok : (commit st version tw).ok = false := by rw [key]
      simp [exitNoExc, hok]

/-- Witness for C1 at concrete inputs: an empty transaction exits cleanly
with no write, and a one-entry transaction whose CAS fails reports failure. -/
theorem commit_empty_trivial_nonempty_cas_failure_rolls_back_witness :
    exitNoExc ⟨[(1, 5)], []⟩ 3 (.ok true) = .ok (⟨[(1, 5)], []⟩, none) ∧
    (commit ⟨[(1, 5)], [⟨1, 9, 5⟩]⟩ 3 (.ok false)).ok = false ∧
    lookupA (commit ⟨[(1, 5)], [⟨1, 9, 5⟩]⟩ 3 (.ok false)).st.objmap 1 = some 5 := by
  refine ⟨(commit_empty_trivial_nonempty_cas_failure_rolls_back ⟨[(1, 5)], []⟩ 3 (.ok true)).1 rfl,
    ((commit_empty_trivial_nonempty_cas_failure_rolls_back ⟨[(1, 5)], [⟨1, 9, 5⟩]⟩ 3
      (.ok false)).2.2.2 (by simp) (Or.inl rfl)).1,
    ((commit_empty_trivial_nonempty_cas_failure_rolls_back ⟨[(1, 5)], [⟨1, 9, 5⟩]⟩ 3
      (.ok false)).2.2.2 (by simp) (Or.inl rfl)).2.1 (by simp) ⟨1, 9, 5⟩ (by simp)⟩

/-- C2: on an outermost exit with a pending exception, the transaction is
rolled back and unlinked without committing: every traced (proxy,
pre-image) pair has both the proxy's `subobj` and the object-map entry's
`subobj` restored to the pre-image, the resulting object map equals the map
at transaction entry, and `__exit__` returns `False` so the original
exception propagates. -/
theorem exitExc_restores_entry_state (st : TState) (entryMap : AList Val)
    (hnd : (st.objs.map TEntry.xid).Nodup)
    (hprev : ∀ e ∈ st.objs, lookupA entryMap e.xid = some e.prev)
    (huntouched : ∀ k, (∀ e ∈ st.objs, e.xid ≠ k) →
      lookupA st.objmap k = lookupA entryMap k) :
    (exitExc st).2.1 = false ∧
    (exitExc st).1.objs = [] ∧
    (exitExc st).2.2 = st.objs.map (fun e => { e with proxySub := e.prev }) ∧
    (∀ e ∈ st.objs, lookupA (exitExc st).1.objmap e.xid = some e.prev) ∧
    (∀ k, lookupA (exitExc st).1.objmap k = lookupA entryMap k) := by
  refine ⟨rfl, rfl, rfl, ?_, ?_⟩
  · intro e he
    simp only [exitExc, rollback]
    exact lookupA_installFold_mem TEntry.prev st.objs st.objmap e he hnd
  · intro k
    simp only [exitExc, rollback]
    rw [lookupA_installFold TEntry.prev st.objs st.objmap k hnd]
    cases hfind : st.objs.find? (fun e => e.xid == k) with
    | some e =>
      have hmem := List.mem_of_find?_eq_some hfind
      have hxid : e.xid = k := by
        have := List.find?_some hfind
        simpa using this
      rw [← hxid]
      exact (hprev e hmem).symm
    | none =>
      apply huntouched
      intro e he hcontra
      have := List.find?_eq_none.mp hfind e he
      simp [hcontra] at this

/-- Witness for C2: a one-entry transaction whose proxy moved `5 ↦ 9` is
fully restored on an exception exit. -/
theorem exitExc_restores_entry_state_witness :
    ((⟨[(1, 9)], [⟨1, 9, 5⟩]⟩ : TState).objs.map TEntry.xid).Nodup ∧
    (exitExc ⟨[(1, 9)], [⟨1, 9, 5⟩]⟩).2.1 = false ∧
    (∀ e ∈ (⟨[(1, 9)], [⟨1, 9, 5⟩]⟩ : TState).objs,
      lookupA (exitExc ⟨[(1, 9)], [⟨1, 9, 5⟩]⟩).1.objmap e.xid = some e.prev) := by
  have h := exitExc_restores_entry_state ⟨[(1, 9)], [⟨1, 9, 5⟩]⟩ [(1, 5)]
    (by simp)
    (by intro e he; simp at he; subst he; simp [lookupA])
    (by
      intro k hk
      have h1 : (1 : Nat) ≠ k := hk ⟨1, 9, 5⟩ (by simp)
      simp [lookupA, h1])
  exact ⟨by simp, h.1, h.2.2.2.1⟩

/-! ## Retry decorator (`transactional._inner._f`, transaction.py:102-122)

The wrapped call loop is modelled for the worst case the claim quantifies
over: every attempt raises `TransactionError`.  After each failed attempt
the loop decrements `num_retries` (when set) and raises
`TransactionRetryError` when it drops to `0` or below; then it checks the
deadline (when set) and raises `TransactionTimeoutError` on expiry.
`expired i` abstracts `time () > deadline` after the `i`-th attempt. -/

inductive RetryOutcome where
  | retryErr
  | timeoutErr
  deriving Repr, DecidableEq

/-- The bookkeeping after one failed attempt (transaction.py:114-120). -/
def retryStep (numRetries : Option Int) (deadlineSet : Bool) (expired : Bool) :
    Sum RetryOutcome (Option Int) :=
  match numRetries with
  | some n =>
    if n - 1 ≤ 0 then .inl .retryErr
    else if deadlineSet && expired then .inl .timeoutErr
    else .inr (some (n - 1))
  | none =>
    if deadlineSet && expired then .inl .timeoutErr else .inr none

/-- Run the retry loop through `fuel` failed attempts, the `i`-th attempt
being the `(i+1)`-st overall; returns the raised outcome together with the
total number of failed attempts made, or `none` if the loop is still
running after `fuel` attempts. -/
def retryRun (numRetries : Option Int) (deadlineSet : Bool)
    (expired : Nat → Bool) : Nat → Nat → Option (RetryOutcome × Nat)
  | 0, _ => none
  | fuel + 1, i =>
    match retryStep numRetries deadlineSet (expired i) with
    | .inl o => some (o, i + 1)
    | .inr nr => retryRun nr deadlineSet expired fuel (i + 1)

theorem retryRun_pos (r : Nat) (expired : Nat → Bool) (hr : 1 ≤ r) :
    ∀ fuel i, r ≤ fuel →
      retryRun (some (r : Int)) false expired fuel i = some (.retryErr, i + r) := by
  induction r with
  | zero => omega
  | succ r ih =>
    intro fuel i hfuel
    obtain ⟨f, rfl⟩ : ∃ f, fuel = f + 1 := ⟨fuel - 1, by omega⟩
    by_cases hr1 : r = 0
    · subst hr1
      simp [retryRun, retryStep]
    · have hcond : ¬((r : Int) + 1 - 1 ≤ 0) := by
        omega
      have hstep : retryStep (some ((r + 1 : Nat) : Int)) false (expired i) =
          .inr (some (r : Int)) := by
        simp only [retryStep]
        push_cast
        rw [if_neg hcond]
        simp
      rw [retryRun, hstep]
      show retryRun (some (r : Int)) false expired f (i + 1) = _
      rw [ih (by omega) f (i + 1) (by omega)]
      have harith : i + 1 + r = i + (r + 1) := by omega
      rw [harith]

/-- C3 (amended): with `retries = r` and no timeout, the wrapper raises
`TransactionRetryError` after exactly `max r 1` failed attempts (so
`retries = 0` behaves like `retries = 1`, not like zero attempts), and when
both `retries` and `timeout` are unset the loop never raises either
terminal error, retrying without bound. -/
theorem transactional_retry_bound (r fuel : Nat) (expired : Nat → Bool)
    (hfuel : max r 1 ≤ fuel) :
    retryRun (some (r : Int)) false expired fuel 0 = some (.retryErr, max r 1) ∧
    (∀ n i, retryRun none false expired n i = none) := by
  constructor
  · by_cases hr : r = 0
    · subst hr
      obtain ⟨f, rfl⟩ : ∃ f, fuel = f + 1 := ⟨fuel - 1, by omega⟩
      simp [retryRun, retryStep]
    · have hrf : r ≤ fuel := le_trans (le_max_left r 1) hfuel
      have hrun := retryRun_pos r expired (by omega) fuel 0 hrf
      rw [hrun, max_eq_left (show 1 ≤ r by omega)]
      simp
  · intro n
    induction n with
    | zero => intro i; rfl
    | succ n ih =>
      intro i
      rw [retryRun]
      simp only [retryStep, Bool.false_and, if_false]
      exact ih (i + 1)

/-- Witness for C3's amended theorem at `r = 2`, `fuel = 5`. -/
theorem transactional_retry_bound_witness :
    max 2 1 ≤ 5 ∧
    retryRun (some (2 : Int)) false (fun _ => false) 5 0 = some (.retryErr, max 2 1) ∧
    retryRun none false (fun _ => false) 4 0 = none := by
  have h := transactional_retry_bound 2 5 (fun _ => false) (by decide)
  exact ⟨by decide, h.1, h.2 4 0⟩

/-- Counterexample to C3 as stated: with `retries = 0` the wrapper performs
one failed attempt before raising `TransactionRetryError`, not zero. -/
theorem transactional_retries_zero_counterexample :
    retryRun (some (0 : Int)) false (fun _ => false) 5 0 = some (.retryErr, 1) ∧
    (1 : Nat) ≠ 0 := by
  constructor
  · rfl
  · decide

/-! ## Backends and Manager refresh/write (`src/tosc/manager.py`,
`src/tosc/backends/`)

A backend's store is `Option (version × payload)`.  The Manager cache is
its `version` and `root_obj`, with the `NIL` sentinel modelled as `none`
and a loaded payload `p` modelled as the root `some p`. -/

structure MgrCache where
  version : Nat
  root_obj : Option (List Nat)
  deriving Repr, DecidableEq

/-- Model of `FileBackend.read` (backends/file.py:98-104): a missing file raises
`FileNotFoundError`, which the method turns into `(0, None)`. -/
def fileBackend_read : Option (Nat × List Nat) → Option Nat × Option (List Nat)
  | none => (some 0, none)
  | some (v, payload) => (some v, some payload)

/-- Model of `InprocBackend.read` (backends/inproc.py:22-27): an empty store yields
`(None, None)`. -/
def inprocBackend_read : Option (Nat × List Nat) → Option Nat × Option (List Nat)
  | none => (none, none)
  | some (v, payload) => (some v, some payload)

/-- Model of `Manager._refresh_locked` (manager.py:110-121): return `dfl` when the
backend reports no version; keep the cached root when the cached version is
not older; otherwise adopt the loaded payload as the new root. -/
def refresh_locked (m : MgrCache) (readResult : Option Nat × Option (List Nat))
    (dfl : Option (List Nat)) : Option (List Nat) × MgrCache :=
  match readResult.1 with
  | none => (dfl, m)
  | some v =>
    if m.version ≥ v then (m.root_obj, m)
    else (readResult.2, ⟨v, readResult.2⟩)

/-- C5: the claim follows `BaseBackend.read`'s documentation ("If no data
has been stored, this method must return `(None, None)`") and the spec.
`FileBackend.read` violates it: a missing file yields `(0, None)`, so
`Manager.refresh (dfl)` on a fresh Manager returns the `NIL` sentinel
(`none`) instead of `dfl`.  The in-process backend honours the contract
and refresh then does return `dfl`. -/
theorem fileBackend_empty_read_breaks_refresh_default :
    fileBackend_read none = (some 0, none) ∧
    fileBackend_read none ≠ (none, none) ∧
    (refresh_locked ⟨0, none⟩ (fileBackend_read none) (some [7])).1 = none ∧
    (refresh_locked ⟨0, none⟩ (inprocBackend_read none) (some [7])).1 = some [7] := by
  refine ⟨rfl, by decide, rfl, rfl⟩

/-- Model of `Manager._update` (manager.py:151-155): adopt the new version and root
only when the backend version exceeds the cached one. -/
def manager_update (m : MgrCache) (version : Nat) (root : Option (List Nat)) :
    MgrCache :=
  if version > m.version then ⟨version, root⟩ else m

/-- Model of `Manager.write` (manager.py:157-165): serialise, unconditional backend
write returning `backendVersion`, reload the payload as the new root, then
`_update` under the lock.  `some payload` stands for the deserialised
written payload. -/
def manager_write (m : MgrCache) (payload : List Nat) (backendVersion : Nat) :
    MgrCache :=
  manager_update m backendVersion (some payload)

/-- C6 (amended): after `Manager.write`, the cached root and version are
adopted exactly when the version returned by the backend write exceeds the
cached version; for a smaller-or-equal backend version the cache is left
untouched, so the adoption is conditional, not unconditional. -/
theorem manager_write_adopts_iff_version_increases (m : MgrCache)
    (payload : List Nat) (v : Nat) :
    (v > m.version → manager_write m payload v = ⟨v, some payload⟩) ∧
    (v ≤ m.version → manager_write m payload v = m) := by
  constructor
  · intro h
    simp [manager_write, manager_update, h]
  · intro h
    simp [manager_write, manager_update]
    omega

/-- Witness for C6's amended theorem: adoption at `v = 7 > 5`, no adoption
at `v = 3 ≤ 5`. -/
theorem manager_write_adopts_iff_version_increases_witness :
    7 > 5 ∧ manager_write ⟨5, some [1]⟩ [2] 7 = ⟨7, some [2]⟩ ∧
    3 ≤ 5 ∧ manager_write ⟨5, some [1]⟩ [2] 3 = ⟨5, some [1]⟩ := by
  refine ⟨by decide,
    (manager_write_adopts_iff_version_increases ⟨5, some [1]⟩ [2] 7).1 (by decide),
    by decide,
    (manager_write_adopts_iff_version_increases ⟨5, some [1]⟩ [2] 3).2 (by decide)⟩

/-- Counterexample to C6 as stated: with cached version `5`, a backend
write returning version `3` does not make the Manager adopt the written
payload — the cached root and version stay `(5, some [1])`, not
`(3, some [2])`. -/
theorem manager_write_not_unconditional_counterexample :
    manager_write ⟨5, some [1]⟩ [2] 3 = ⟨5, some [1]⟩ ∧
    (⟨5, some [1]⟩ : MgrCache) ≠ ⟨3, some [2]⟩ := by
  refine ⟨by decide, by decide⟩

/-! ## `transactional` decoration-time validation (transaction.py:93-100) -/

/-- The validation run when `transactional` is applied: `True` means
`ValueError` is raised.  `retries` values are integers, `timeout` values
rationals (the non-numeric type errors are outside the value model). -/
def transactional_validation_raises (retries : Option Int)
    (timeout : Option Rat) : Bool :=
  (match retries with | some r => decide (r < 0) | none => false) ||
  (match timeout with | some t => decide (t < 0) | none => false)

/-- C7 (amended): the decoration-time validation raises exactly for a
negative `retries` or a negative `timeout`; `retries = 0` and
`timeout = 0` are accepted without raising. -/
theorem transactional_validation_iff (retries : Option Int)
    (timeout : Option Rat) :
    transactional_validation_raises retries timeout = true ↔
      (∃ r, retries = some r ∧ r < 0) ∨ (∃ t, timeout = some t ∧ t < 0) := by
  cases retries with
  | none =>
    cases timeout with
    | none => simp [transactional_validation_raises]
    | some t => simp [transactional_validation_raises]
  | some r =>
    cases timeout with
    | none => simp [transactional_validation_raises]
    | some t => simp [transactional_validation_raises, or_comm]

/-- Counterexample to C7 as stated: `retries = 0` is non-positive, yet the
validation accepts it without raising. -/
theorem transactional_validation_zero_counterexample :
    transactional_validation_raises (some 0) none = false := by
  decide

/-! ## `BaseBackend.set_id` (backends/base.py:24-27) -/

/-- Model of `set_id` (backends/base.py:24-27): raise `ValueError` when both the stored and the new id are
non-null, otherwise install the new id. -/
def set_id (uniqueId : Option Nat) (newId : Option Nat) :
    Except Unit (Option Nat) :=
  if uniqueId.isSome && newId.isSome then .error ()
  else .ok newId

def raisesValueError {α : Type} : Except Unit α → Bool
  | .error _ => true
  | .ok _ => false

/-- C8 (amended): the first installation (from the initial null id) always
succeeds, and a second `set_id` fails exactly when both the stored and the
new id are non-null — including when the two ids are equal. -/
theorem set_id_one_shot (a b : Option Nat) :
    set_id none a = .ok a ∧
    raisesValueError (set_id a b) = (a.isSome && b.isSome) := by
  constructor
  · simp [set_id]
  · cases a with
    | none => simp [set_id, raisesValueError]
    | some x =>
      cases b with
      | none => simp [set_id, raisesValueError]
      | some y => simp [set_id, raisesValueError]

/-- Counterexample to C8 as stated: re-installing the *same* non-null id
also fails, although the claim predicts failure only for a distinct second
id. -/
theorem set_id_same_id_counterexample :
    raisesValueError (set_id (some 1) (some 1)) = true ∧
    ¬((some 1 : Option Nat) ≠ some 1) := by
  refine ⟨by decide, by decide⟩

/-! ## Proxy read/write paths (`src/tosc/dtypes.py`)

`dmgr is None` is the proxy's `attached = false` state.  The Manager is
viewed through its `version`, committed `objmap` and the set of xids traced
by the current transaction (`is_dirty`).  The model is single-threaded:
`dmgr.version` is stable during one call, so the version-recheck loops in
the source take their exit branch at once. -/

structure MgrView where
  version : Nat
  objmap : AList Val
  traced : List Nat
  deriving Repr, DecidableEq

structure ProxyState where
  attached : Bool
  xid : Nat
  subobj : Val
  version : Nat
  deriving Repr, DecidableEq

/-- Model of `_ensure_latest_subobj` (dtypes.py:28-47): detached or up-to-date
proxies answer from their local `subobj`; otherwise consult `objmap`,
detaching when the xid is gone and adopting the committed `subobj`
otherwise. -/
def ensure_latest_subobj (p : ProxyState) (m : MgrView) : Val × ProxyState :=
  if p.attached = false || p.version == m.version then (p.subobj, p)
  else
    match lookupA m.objmap p.xid with
    | none => (p.subobj, { p with attached := false })
    | some sub => (sub, { p with subobj := sub, version := m.version })

structure CallResult where
  ret : Val
  proxy : ProxyState
  tracedEntry : Option (Nat × Val)
  deriving Repr, DecidableEq

/-- Model of `_call_with_latest` (dtypes.py:49-100): the mutating-method path.
Detached proxies run the method on the local `subobj`.  Attached and
up-to-date: a missing `objmap` entry detaches; a dirty proxy mutates in
place without tracing; a clean proxy shadow-copies, mutates the copy and
records `(xid, pre-image)`.  Attached and stale: a missing entry detaches,
otherwise the proxy rebases onto the committed `subobj`, shadow-copies,
mutates and records `(xid, committed pre-image)`. -/
def call_with_latest (p : ProxyState) (m : MgrView) (method : Val → Val) :
    CallResult :=
  if p.attached = false then
    ⟨method p.subobj, { p with subobj := method p.subobj }, none⟩
  else if p.version == m.version then
    match lookupA m.objmap p.xid with
    | none =>
      ⟨method p.subobj, { p with attached := false, subobj := method p.subobj }, none⟩
    | some _ =>
      if p.xid ∈ m.traced then
        ⟨method p.subobj, { p with subobj := method p.subobj }, none⟩
      else
        ⟨method p.subobj, { p with subobj := method p.subobj },
          some (p.xid, p.subobj)⟩
  else
    match lookupA m.objmap p.xid with
    | none =>
      ⟨method p.subobj, { p with attached := false, subobj := method p.subobj }, none⟩
    | some sub =>
      ⟨method sub, { p with subobj := method sub, version := m.version },
        some (p.xid, sub)⟩

/-- A sequence of mutating operations run against the same Manager view. -/
def runOps (p : ProxyState) (m : MgrView) (fs : List (Val → Val)) : ProxyState :=
  fs.foldl (fun q f => (call_with_latest q m f).proxy) p

/-- C9: once a proxy's `dmgr` is cleared, it stays cleared: a read answers
the local `subobj` and leaves the proxy untouched, a mutation runs on the
local `subobj` without tracing, and any sequence of later operations keeps
the proxy detached, its `subobj` being just the composition of the local
mutations. -/
theorem detachment_is_terminal (p : ProxyState) (m : MgrView) (f : Val → Val)
    (h : p.attached = false) :
    ensure_latest_subobj p m = (p.subobj, p) ∧
    call_with_latest p m f =
      ⟨f p.subobj, { p with subobj := f p.subobj }, none⟩ ∧
    (∀ fs : List (Val → Val),
      (runOps p m fs).attached = false ∧
      (runOps p m fs).subobj = fs.foldl (fun v g => g v) p.subobj) := by
  refine ⟨by simp [ensure_latest_subobj, h], by simp [call_with_latest, h], ?_⟩
  intro fs
  induction fs generalizing p with
  | nil => exact ⟨h, rfl⟩
  | cons g gs ih =>
    have hstep : call_with_latest p m g =
        ⟨g p.subobj, { p with subobj := g p.subobj }, none⟩ := by
      simp [call_with_latest, h]
    have hrun : runOps p m (g :: gs) = runOps { p with subobj := g p.subobj } m gs := by
      simp [runOps, hstep]
    rw [hrun]
    exact ih { p with subobj := g p.subobj } h

/-- Witness for C9: a detached proxy at `subobj = 10` stays detached and
accumulates `(+1)` then `(*2)` locally, ending at `22`, even though the
Manager's map holds `99` for its xid. -/
theorem detachment_is_terminal_witness :
    (⟨false, 1, 10, 0⟩ : ProxyState).attached = false ∧
    ensure_latest_subobj ⟨false, 1, 10, 0⟩ ⟨3, [(1, 99)], []⟩ =
      (10, ⟨false, 1, 10, 0⟩) ∧
    (runOps ⟨false, 1, 10, 0⟩ ⟨3, [(1, 99)], []⟩
      [fun v => v + 1, fun v => v * 2]).attached = false ∧
    (runOps ⟨false, 1, 10, 0⟩ ⟨3, [(1, 99)], []⟩
      [fun v => v + 1, fun v => v * 2]).subobj = 22 := by
  have h := detachment_is_terminal ⟨false, 1, 10, 0⟩ ⟨3, [(1, 99)], []⟩ id rfl
  have h2 := h.2.2 [fun v => v + 1, fun v => v * 2]
  refine ⟨rfl, h.1, h2.1, ?_⟩
  rw [h2.2]
  rfl

/-! ## `Manager.link` / `Manager.is_linked` staging (`src/tosc/manager.py`)

`objmap` and `new_objmap` are two Python names that usually alias one
dictionary; `aliased` records that sharing, and an insertion through
`new_objmap` is mirrored into `objmap` exactly when they alias.  `_load`
rebinds `new_objmap` to a fresh empty dict; `_refresh_locked` and
`_update` rebind `objmap` to `new_objmap`, restoring the aliasing. -/

structure LinkMgr where
  objmap : AList Nat
  new_objmap : AList Nat
  aliased : Bool
  xid_counter : Nat
  version : Nat
  deriving Repr, DecidableEq

structure LObj where
  xid : Nat
  token : Nat
  version : Nat
  deriving Repr, DecidableEq

/-- Model of `Manager.link` (manager.py:95-108): assign a fresh xid when the
object's is `0`, reject a distinct object already present under the same
xid, stamp the Manager version, and insert into `new_objmap`. -/
def mgr_link (m : LinkMgr) (o : LObj) : Except Unit (LinkMgr × LObj) :=
  if o.xid = 0 then
    let x := m.xid_counter
    .ok ({ m with xid_counter := m.xid_counter + 1,
                  new_objmap := insertA m.new_objmap x o.token,
                  objmap := if m.aliased then insertA m.objmap x o.token
                            else m.objmap },
         { o with xid := x, version := m.version })
  else
    match lookupA m.new_objmap o.xid with
    | some t =>
      if t ≠ o.token then .error ()
      else .ok ({ m with new_objmap := insertA m.new_objmap o.xid o.token,
                         objmap := if m.aliased then insertA m.objmap o.xid o.token
                                   else m.objmap },
                { o with version := m.version })
    | none =>
      .ok ({ m with new_objmap := insertA m.new_objmap o.xid o.token,
                    objmap := if m.aliased then insertA m.objmap o.xid o.token
                              else m.objmap },
            { o with version := m.version })

/-- Model of `Manager.is_linked` (manager.py:42-46): membership in the committed
`objmap`. -/
def mgr_is_linked (m : LinkMgr) (o : LObj) : Bool :=
  memA m.objmap o.xid

/-- The `self.new_objmap = {}` rebinding at the start of `Manager._load`
(manager.py:147-149): the two names stop aliasing. -/
def load_begin (m : LinkMgr) : LinkMgr :=
  { m with new_objmap := [], aliased := false }

/-- The `self.objmap = self.new_objmap` rebinding in `_refresh_locked`
(manager.py:120) and `_update` (manager.py:155): the staging map is swapped
in and the two names alias again. -/
def swap_maps (m : LinkMgr) : LinkMgr :=
  { m with objmap := m.new_objmap, aliased := true }

/-- C10 (amended): while `objmap` and `new_objmap` alias, a successful
`link` makes `is_linked` true immediately.  During a load the maps are
distinct, so a linked object whose xid is *not* already a key of the
committed map is not `is_linked` until `swap_maps` runs, and is `is_linked`
afterwards.  (An xid already present in the committed map is `is_linked`
even before the swap — see the counterexample.) -/
theorem link_is_linked_staging (m : LinkMgr) (o : LObj) :
    (m.aliased = true → ∀ m' o', mgr_link m o = .ok (m', o') →
      mgr_is_linked m' o' = true) ∧
    (∀ m' o', mgr_link (load_begin m) o = .ok (m', o') →
      (memA m.objmap o'.xid = false → mgr_is_linked m' o' = false) ∧
      mgr_is_linked (swap_maps m') o' = true) := by
  constructor
  · intro hal m' o' hlink
    by_cases hx : o.xid = 0
    · simp only [mgr_link, hx, if_true, Except.ok.injEq, Prod.mk.injEq] at hlink
      obtain ⟨hm, ho⟩ := hlink
      subst hm; subst ho
      simp [mgr_is_linked, memA, hal, lookupA_insertA_self]
    · simp only [mgr_link, hx, if_false] at hlink
      cases hfind : lookupA m.new_objmap o.xid with
      | some t =>
        rw [hfind] at hlink
        by_cases ht : t ≠ o.token
        · simp [ht] at hlink
        · simp only [ht, if_false, Except.ok.injEq, Prod.mk.injEq, if_neg ht] at hlink
          obtain ⟨hm, ho⟩ := hlink
          subst hm; subst ho
          simp [mgr_is_linked, memA, hal, lookupA_insertA_self]
      | none =>
        rw [hfind] at hlink
        simp only [Except.ok.injEq, Prod.mk.injEq] at hlink
        obtain ⟨hm, ho⟩ := hlink
        subst hm; subst ho
        simp [mgr_is_linked, memA, hal, lookupA_insertA_self]
  · intro m' o' hlink
    by_cases hx : o.xid = 0
    · simp only [mgr_link, load_begin, hx, if_true, Except.ok.injEq,
        Prod.mk.injEq] at hlink
      obtain ⟨hm, ho⟩ := hlink
      subst hm; subst ho
      constructor
      · intro hmem
        simpa [mgr_is_linked] using hmem
      · simp [mgr_is_linked, swap_maps, memA, lookupA_insertA_self]
    · simp only [mgr_link, load_begin, hx, if_false, lookupA] at hlink
      simp only [Except.ok.injEq, Prod.mk.injEq] at hlink
      obtain ⟨hm, ho⟩ := hlink
      subst hm; subst ho
      constructor
      · intro hmem
        simpa [mgr_is_linked] using hmem
      · simp [mgr_is_linked, swap_maps, memA, lookupA_insertA_self]

/-- Witness for C10's amended theorem: linking a fresh object while the
maps alias makes it `is_linked` at once; linking xid `4` during a load of a
Manager whose committed map only knows xid `3` leaves it unlinked until
the swap, after which it is linked. -/
theorem link_is_linked_staging_witness :
    mgr_link ⟨[(3, 10)], [(3, 10)], true, 5, 2⟩ ⟨0, 42, 0⟩ =
      .ok (⟨[(5, 42), (3, 10)], [(5, 42), (3, 10)], true, 6, 2⟩, ⟨5, 42, 2⟩) ∧
    mgr_is_linked ⟨[(5, 42), (3, 10)], [(5, 42), (3, 10)], true, 6, 2⟩ ⟨5, 42, 2⟩ = true ∧
    mgr_link (load_begin ⟨[(3, 10)], [(3, 10)], true, 5, 2⟩) ⟨4, 42, 0⟩ =
      .ok (⟨[(3, 10)], [(4, 42)], false, 5, 2⟩, ⟨4, 42, 2⟩) ∧
    mgr_is_linked ⟨[(3, 10)], [(4, 42)], false, 5, 2⟩ ⟨4, 42, 2⟩ = false ∧
    mgr_is_linked (swap_maps ⟨[(3, 10)], [(4, 42)], false, 5, 2⟩) ⟨4, 42, 2⟩ = true := by
  have h1 := (link_is_linked_staging ⟨[(3, 10)], [(3, 10)], true, 5, 2⟩ ⟨0, 42, 0⟩).1
    rfl ⟨[(5, 42), (3, 10)], [(5, 42), (3, 10)], true, 6, 2⟩ ⟨5, 42, 2⟩ rfl
  have h2 := (link_is_linked_staging ⟨[(3, 10)], [(3, 10)], true, 5, 2⟩ ⟨4, 42, 0⟩).2
    ⟨[(3, 10)], [(4, 42)], false, 5, 2⟩ ⟨4, 42, 2⟩ rfl
  exact ⟨rfl, h1, rfl, h2.1 (by decide), h2.2⟩

/-- Counterexample to C10 as stated: reloading a blob that stores xid `3`
into a Manager whose committed map already has key `3` makes the freshly
linked object `is_linked` *before* any swap, because `is_linked` only tests
key membership in the committed map. -/
theorem link_during_load_already_linked_counterexample :
    mgr_link (load_begin ⟨[(3, 10)], [(3, 10)], true, 5, 2⟩) ⟨3, 99, 0⟩ =
      .ok (⟨[(3, 10)], [(3, 99)], false, 5, 2⟩, ⟨3, 99, 2⟩) ∧
    mgr_is_linked ⟨[(3, 10)], [(3, 99)], false, 5, 2⟩ ⟨3, 99, 2⟩ = true := by
  refine ⟨rfl, by decide⟩

/-! ## Serialiser round-trip (`src/tosc/dpickler.py`)

Encodable Python values.  `dobj` is a `DObject` proxy around an underlying
value, carrying its `xid` and whether its `dmgr` reference is set
(`attached`): `DPickler.persistent_id` encodes the dumping Manager as the
sentinel `-1`, restored to the receiving Manager on load, while a null
`dmgr` pickles as a plain null.  `record` is a user-defined record given by
its class name and attribute mapping (`_obj_attrs`).  The pickle byte
format is external to the repository and modelled as structure-preserving;
the load path's calls back into repository code are modelled explicitly,
errors included: `DObject.__setstate__` runs `self.dmgr.link (self)`
(dtypes.py:24-26), which is an `AttributeError` when `dmgr` is null and
`Manager.link`'s duplicate-ID `ValueError` when the stored xid already
keys the staging map (manager.py:104-105), and `_make_any` links a fresh
`DList` of the attribute values (dpickler.py:13-22). -/

inductive PyVal where
  | pyint (n : Int)
  | pystr (s : String)
  | pybool (b : Bool)
  | pybytes (bs : List Nat)
  | pynone
  | pytuple (xs : List PyVal)
  | pyfrozenset (xs : List PyVal)
  | pylist (xs : List PyVal)
  | pyset (xs : List PyVal)
  | pydict (kvs : List (PyVal × PyVal))
  | pybytearray (bs : List Nat)
  | dobj (sub : PyVal) (xid : Nat) (attached : Bool)
  | record (cls : String) (attrs : List (String × PyVal))

mutual

/-- Model of `make_pickable` (dpickler.py:78-97): immutable scalars, `None`,
tuples, frozensets and existing `DObject`s pass through; plain lists, sets
and dicts are promoted to their distributed counterparts (`xid = 0`,
`dmgr` set to the Manager, hence attached) with their elements (and keys)
made pickable; a plain bytearray is promoted as-is; any other object
becomes a `_Wrapper` over its class and attribute mapping, here kept as
the `record` node itself. -/
def make_pickable : PyVal → PyVal
  | .pyint n => .pyint n
  | .pystr s => .pystr s
  | .pybool b => .pybool b
  | .pybytes bs => .pybytes bs
  | .pynone => .pynone
  | .pytuple xs => .pytuple xs
  | .pyfrozenset xs => .pyfrozenset xs
  | .pylist xs => .dobj (.pylist (mpList xs)) 0 true
  | .pyset xs => .dobj (.pyset (mpList xs)) 0 true
  | .pydict kvs => .dobj (.pydict (mpKVs kvs)) 0 true
  | .pybytearray bs => .dobj (.pybytearray bs) 0 true
  | .dobj sub x att => .dobj sub x att
  | .record cls attrs => .record cls attrs

def mpList : List PyVal → List PyVal
  | [] => []
  | x :: xs => make_pickable x :: mpList xs

def mpKVs : List (PyVal × PyVal) → List (PyVal × PyVal)
  | [] => []
  | (k, v) :: kvs => (make_pickable k, make_pickable v) :: mpKVs kvs

end

/-- The load-side linking state: the keys of the receiving Manager's
`new_objmap`, and its `_xid` counter.  The mapped-to objects themselves are
irrelevant to `link`'s checks for a freshly unpickled object, because
`new_objmap.get (xid)` can then only return an object distinct from the
fresh one. -/
structure LoadState where
  new_objmap : List Nat
  xid_ctr : Nat
  deriving Repr, DecidableEq

/-- Model of `Manager.link` (manager.py:95-108) as invoked on a freshly
unpickled object during load: `xid = 0` draws a fresh id from the counter;
a non-zero xid already keying the staging map is the duplicate-ID
`ValueError` (the `tmp is not obj` test cannot save a fresh object);
otherwise the xid is kept and inserted.  Returns the assigned xid. -/
def link_on_load (xid : Nat) (st : LoadState) : Except Unit (Nat × LoadState) :=
  if xid = 0 then
    .ok (st.xid_ctr, ⟨st.xid_ctr :: st.new_objmap, st.xid_ctr + 1⟩)
  else if xid ∈ st.new_objmap then .error ()
  else .ok (xid, ⟨xid :: st.new_objmap, st.xid_ctr⟩)

mutual

/-- The modelled load of a pickable tree (`DUnpickler.load`,
dpickler.py:43-55): pickling preserves scalars and container structure;
`DObject.__setstate__` (dtypes.py:24-26) rebuilds the proxy around its
pickled sub-value and then calls `self.dmgr.link (self)` — an
`AttributeError` (modelled `.error ()`) when the pickled `dmgr` was null,
otherwise `link_on_load` with the stored xid; `_make_any`
(dpickler.py:13-22) rebuilds a record over its pickled attribute values
and links a fresh `DList` holding them.  Children are loaded before their
parent links, matching pickle's reconstruction order. -/
def unpickleL : PyVal → LoadState → Except Unit (PyVal × LoadState)
  | .pyint n, st => .ok (.pyint n, st)
  | .pystr s, st => .ok (.pystr s, st)
  | .pybool b, st => .ok (.pybool b, st)
  | .pybytes bs, st => .ok (.pybytes bs, st)
  | .pynone, st => .ok (.pynone, st)
  | .pytuple xs, st =>
    match upListL xs st with
    | .error e => .error e
    | .ok (ys, st') => .ok (.pytuple ys, st')
  | .pyfrozenset xs, st =>
    match upListL xs st with
    | .error e => .error e
    | .ok (ys, st') => .ok (.pyfrozenset ys, st')
  | .pylist xs, st =>
    match upListL xs st with
    | .error e => .error e
    | .ok (ys, st') => .ok (.pylist ys, st')
  | .pyset xs, st =>
    match upListL xs st with
    | .error e => .error e
    | .ok (ys, st') => .ok (.pyset ys, st')
  | .pydict kvs, st =>
    match upKVsL kvs st with
    | .error e => .error e
    | .ok (kvs', st') => .ok (.pydict kvs', st')
  | .pybytearray bs, st => .ok (.pybytearray bs, st)
  | .dobj sub m att, st =>
    match unpickleL sub st with
    | .error e => .error e
    | .ok (sub', st') =>
      if att then
        match link_on_load m st' with
        | .error e => .error e
        | .ok (m', st'') => .ok (.dobj sub' m' true, st'')
      else .error ()
  | .record cls attrs, st =>
    match upFieldsL attrs st with
    | .error e => .error e
    | .ok (attrs', st') =>
      match link_on_load 0 st' with
      | .error e => .error e
      | .ok (_, st'') => .ok (.record cls attrs', st'')

def upListL : List PyVal → LoadState → Except Unit (List PyVal × LoadState)
  | [], st => .ok ([], st)
  | x :: xs, st =>
    match unpickleL x st with
    | .error e => .error e
    | .ok (y, st') =>
      match upListL xs st' with
      | .error e => .error e
      | .ok (ys, st'') => .ok (y :: ys, st'')

def upKVsL : List (PyVal × PyVal) → LoadState → Except Unit (List (PyVal × PyVal) × LoadState)
  | [], st => .ok ([], st)
  | (k, v) :: kvs, st =>
    match unpickleL k st with
    | .error e => .error e
    | .ok (k', st1) =>
      match unpickleL v st1 with
      | .error e => .error e
      | .ok (v', st2) =>
        match upKVsL kvs st2 with
        | .error e => .error e
        | .ok (kvs', st3) => .ok ((k', v') :: kvs', st3)

def upFieldsL : List (String × PyVal) → LoadState → Except Unit (List (String × PyVal) × LoadState)
  | [], st => .ok ([], st)
  | (n, v) :: rest, st =>
    match unpickleL v st with
    | .error e => .error e
    | .ok (v', st1) =>
      match upFieldsL rest st1 with
      | .error e => .error e
      | .ok (rest', st2) => .ok ((n, v') :: rest', st2)

end

mutual

/-- Canonical form of the semantic value: every `DObject` wrapper is
erased in favour of its `subobj`, recursively.  This is exactly how the
proxy layer's comparison operators behave (`_make_method` with `is_op`
unwraps both operands through `_ensure_latest_subobj` before delegating to
the underlying container's operator). -/
def canon : PyVal → PyVal
  | .pyint n => .pyint n
  | .pystr s => .pystr s
  | .pybool b => .pybool b
  | .pybytes bs => .pybytes bs
  | .pynone => .pynone
  | .pytuple xs => .pytuple (canonList xs)
  | .pyfrozenset xs => .pyfrozenset (canonList xs)
  | .pylist xs => .pylist (canonList xs)
  | .pyset xs => .pyset (canonList xs)
  | .pydict kvs => .pydict (canonKVs kvs)
  | .pybytearray bs => .pybytearray bs
  | .dobj sub _ _ => canon sub
  | .record cls attrs => .record cls (canonFields attrs)

def canonList : List PyVal → List PyVal
  | [] => []
  | x :: xs => canon x :: canonList xs

def canonKVs : List (PyVal × PyVal) → List (PyVal × PyVal)
  | [] => []
  | (k, v) :: kvs => (canon k, canon v) :: canonKVs kvs

def canonFields : List (String × PyVal) → List (String × PyVal)
  | [] => []
  | (n, v) :: rest => (n, canon v) :: canonFields rest

end

/-- Semantic equality of encodable values: equality of the underlying
plain values, a `DObject` comparing by its `subobj`. -/
def semEq (a b : PyVal) : Prop := canon a = canon b

mutual

/-- Whether every `DObject` node in the value has its `dmgr` reference set
(an unattached node makes the load raise `AttributeError`). -/
def allAttached : PyVal → Bool
  | .pyint _ => true
  | .pystr _ => true
  | .pybool _ => true
  | .pybytes _ => true
  | .pynone => true
  | .pytuple xs => allAttachedList xs
  | .pyfrozenset xs => allAttachedList xs
  | .pylist xs => allAttachedList xs
  | .pyset xs => allAttachedList xs
  | .pydict kvs => allAttachedKVs kvs
  | .pybytearray _ => true
  | .dobj sub _ att => att && allAttached sub
  | .record _ attrs => allAttachedFields attrs

def allAttachedList : List PyVal → Bool
  | [] => true
  | x :: xs => allAttached x && allAttachedList xs

def allAttachedKVs : List (PyVal × PyVal) → Bool
  | [] => true
  | (k, v) :: kvs => allAttached k && (allAttached v && allAttachedKVs kvs)

def allAttachedFields : List (String × PyVal) → Bool
  | [] => true
  | (_, v) :: rest => allAttached v && allAttachedFields rest

end

mutual

/-- The non-zero stored xids of the value's `DObject` nodes, in the order
their `__setstate__` link calls run (children first). -/
def nzXids : PyVal → List Nat
  | .pyint _ => []
  | .pystr _ => []
  | .pybool _ => []
  | .pybytes _ => []
  | .pynone => []
  | .pytuple xs => nzXidsList xs
  | .pyfrozenset xs => nzXidsList xs
  | .pylist xs => nzXidsList xs
  | .pyset xs => nzXidsList xs
  | .pydict kvs => nzXidsKVs kvs
  | .pybytearray _ => []
  | .dobj sub m _ => nzXids sub ++ (if m = 0 then [] else [m])
  | .record _ attrs => nzXidsFields attrs

def nzXidsList : List PyVal → List Nat
  | [] => []
  | x :: xs => nzXids x ++ nzXidsList xs

def nzXidsKVs : List (PyVal × PyVal) → List Nat
  | [] => []
  | (k, v) :: kvs => nzXids k ++ (nzXids v ++ nzXidsKVs kvs)

def nzXidsFields : List (String × PyVal) → List Nat
  | [] => []
  | (_, v) :: rest => nzXids v ++ nzXidsFields rest

end

/-- Post-state bound for one load step over stored xids `X`: the counter
never decreases, and every staging-map key afterwards was already present,
is a stored xid of the step, or is a freshly drawn counter value. -/
def StepOK (X keys : List Nat) (c : Nat) (keys1 : List Nat) (c1 : Nat) : Prop :=
  c ≤ c1 ∧ ∀ k ∈ keys1, k ∈ keys ∨ k ∈ X ∨ (c ≤ k ∧ k < c1)

theorem stepOK_refl (X keys : List Nat) (c : Nat) : StepOK X keys c keys c :=
  ⟨le_refl c, fun _ hk => Or.inl hk⟩

theorem stepOK_mono {X Y keys c keys1 c1} (h : StepOK X keys c keys1 c1)
    (hsub : ∀ k ∈ X, k ∈ Y) : StepOK Y keys c keys1 c1 := by
  obtain ⟨hle, hcont⟩ := h
  refine ⟨hle, fun k hk => ?_⟩
  rcases hcont k hk with h | h | h
  · exact Or.inl h
  · exact Or.inr (Or.inl (hsub k h))
  · exact Or.inr (Or.inr h)

theorem stepOK_insert {X keys c keys1 c1 m} (h : StepOK X keys c keys1 c1)
    (hm : m ∈ X) : StepOK X keys c (m :: keys1) c1 := by
  obtain ⟨hle, hcont⟩ := h
  refine ⟨hle, fun k hk => ?_⟩
  rcases List.mem_cons.mp hk with rfl | hk'
  · exact Or.inr (Or.inl hm)
  · exact hcont k hk'

theorem stepOK_fresh {X keys c keys1 c1} (h : StepOK X keys c keys1 c1) :
    StepOK X keys c (c1 :: keys1) (c1 + 1) := by
  obtain ⟨hle, hcont⟩ := h
  refine ⟨by omega, fun k hk => ?_⟩
  rcases List.mem_cons.mp hk with rfl | hk'
  · exact Or.inr (Or.inr ⟨by omega, by omega⟩)
  · rcases hcont k hk' with h | h | ⟨h5, h6⟩
    · exact Or.inl h
    · exact Or.inr (Or.inl h)
    · exact Or.inr (Or.inr ⟨h5, by omega⟩)

theorem stepOK_comp {X1 X2 keys c keys1 c1 keys2 c2}
    (h1 : StepOK X1 keys c keys1 c1) (h2 : StepOK X2 keys1 c1 keys2 c2) :
    StepOK (X1 ++ X2) keys c keys2 c2 := by
  obtain ⟨hle1, hc1⟩ := h1
  obtain ⟨hle2, hc2⟩ := h2
  refine ⟨le_trans hle1 hle2, fun k hk => ?_⟩
  rcases hc2 k hk with h | h | ⟨ha, hb⟩
  · rcases hc1 k h with h' | h' | ⟨ha', hb'⟩
    · exact Or.inl h'
    · exact Or.inr (Or.inl (List.mem_append_left _ h'))
    · exact Or.inr (Or.inr ⟨ha', by omega⟩)
  · exact Or.inr (Or.inl (List.mem_append_right _ h))
  · exact Or.inr (Or.inr ⟨by omega, hb⟩)

theorem stepOK_next {X1 X2 keys c keys1 c1}
    (hdisj : List.Disjoint X1 X2)
    (hkeys : ∀ k ∈ keys, k ∉ X2)
    (hlt : ∀ k ∈ X2, k < c)
    (h1 : StepOK X1 keys c keys1 c1) :
    (∀ k ∈ keys1, k ∉ X2) ∧ (∀ k ∈ X2, k < c1) := by
  obtain ⟨hle, hcont⟩ := h1
  constructor
  · intro k hk hkin
    rcases hcont k hk with h | h | ⟨ha, _⟩
    · exact hkeys k h hkin
    · exact hdisj h hkin
    · exact absurd (hlt k hkin) (by omega)
  · intro k hk
    exact lt_of_lt_of_le (hlt k hk) hle

mutual

theorem unpickleL_ok : ∀ (x : PyVal) (keys : List Nat) (c : Nat),
    allAttached x = true → (nzXids x).Nodup →
    (∀ k ∈ keys, k ∉ nzXids x) → (∀ k ∈ nzXids x, k < c) →
    ∃ y keys1 c1, unpickleL x ⟨keys, c⟩ = .ok (y, ⟨keys1, c1⟩) ∧
      canon y = canon x ∧ StepOK (nzXids x) keys c keys1 c1
  | .pyint n, keys, c, _, _, _, _ =>
    ⟨.pyint n, keys, c, by simp [unpickleL], rfl, stepOK_refl _ _ _⟩
  | .pystr s, keys, c, _, _, _, _ =>
    ⟨.pystr s, keys, c, by simp [unpickleL], rfl, stepOK_refl _ _ _⟩
  | .pybool b, keys, c, _, _, _, _ =>
    ⟨.pybool b, keys, c, by simp [unpickleL], rfl, stepOK_refl _ _ _⟩
  | .pybytes bs, keys, c, _, _, _, _ =>
    ⟨.pybytes bs, keys, c, by simp [unpickleL], rfl, stepOK_refl _ _ _⟩
  | .pynone, keys, c, _, _, _, _ =>
    ⟨.pynone, keys, c, by simp [unpickleL], rfl, stepOK_refl _ _ _⟩
  | .pytuple xs, keys, c, h1, h2, h3, h4 => by
    simp only [allAttached] at h1
    simp only [nzXids] at h2 h3 h4 ⊢
    obtain ⟨ys, keys1, c1, heq, hcanon, hstep⟩ := upListL_ok xs keys c h1 h2 h3 h4
    exact ⟨.pytuple ys, keys1, c1, by simp [unpickleL, heq],
      by simp [canon, hcanon], hstep⟩
  | .pyfrozenset xs, keys, c, h1, h2, h3, h4 => by
    simp only [allAttached] at h1
    simp only [nzXids] at h2 h3 h4 ⊢
    obtain ⟨ys, keys1, c1, heq, hcanon, hstep⟩ := upListL_ok xs keys c h1 h2 h3 h4
    exact ⟨.pyfrozenset ys, keys1, c1, by simp [unpickleL, heq],
      by simp [canon, hcanon], hstep⟩
  | .pylist xs, keys, c, h1, h2, h3, h4 => by
    simp only [allAttached] at h1
    simp only [nzXids] at h2 h3 h4 ⊢
    obtain ⟨ys, keys1, c1, heq, hcanon, hstep⟩ := upListL_ok xs keys c h1 h2 h3 h4
    exact ⟨.pylist ys, keys1, c1, by simp [unpickleL, heq],
      by simp [canon, hcanon], hstep⟩
  | .pyset xs, keys, c, h1, h2, h3, h4 => by
    simp only [allAttached] at h1
    simp only [nzXids] at h2 h3 h4 ⊢
    obtain ⟨ys, keys1, c1, heq, hcanon, hstep⟩ := upListL_ok xs keys c h1 h2 h3 h4
    exact ⟨.pyset ys, keys1, c1, by simp [unpickleL, heq],
      by simp [canon, hcanon], hstep⟩
  | .pydict kvs, keys, c, h1, h2, h3, h4 => by
    simp only [allAttached] at h1
    simp only [nzXids] at h2 h3 h4 ⊢
    obtain ⟨kvs', keys1, c1, heq, hcanon, hstep⟩ := upKVsL_ok kvs keys c h1 h2 h3 h4
    exact ⟨.pydict kvs', keys1, c1, by simp [unpickleL, heq],
      by simp [canon, hcanon], hstep⟩
  | .pybytearray bs, keys, c, _, _, _, _ =>
    ⟨.pybytearray bs, keys, c, by simp [unpickleL], rfl, stepOK_refl _ _ _⟩
  | .dobj sub m att, keys, c, h1, h2, h3, h4 => by
    simp only [allAttached, Bool.and_eq_true] at h1
    obtain ⟨hatt, hsub⟩ := h1
    simp only [nzXids] at h2 h3 h4 ⊢
    by_cases hm : m = 0
    · subst hm
      simp only [eq_self_iff_true, ite_true, List.append_nil] at h2 h3 h4 ⊢
      obtain ⟨y, keys1, c1, heq, hcanon, hstep⟩ := unpickleL_ok sub keys c hsub h2 h3 h4
      refine ⟨.dobj y c1 true, c1 :: keys1, c1 + 1, ?_, ?_, stepOK_fresh hstep⟩
      · simp [unpickleL, heq, hatt, link_on_load]
      · simpa [canon] using hcanon
    · rw [if_neg hm] at h2 h3 h4 ⊢
      rw [List.nodup_append] at h2
      obtain ⟨hnd1, _, hdisj⟩ := h2
      have h3s : ∀ k ∈ keys, k ∉ nzXids sub := fun k hk hmem =>
        h3 k hk (List.mem_append_left _ hmem)
      have h4s : ∀ k ∈ nzXids sub, k < c := fun k hk =>
        h4 k (List.mem_append_left _ hk)
      obtain ⟨y, keys1, c1, heq, hcanon, hstep⟩ := unpickleL_ok sub keys c hsub hnd1 h3s h4s
      have hmx : m ∈ nzXids sub ++ [m] := List.mem_append_right _ (by simp)
      have hmlt : m < c := h4 m hmx
      have hmnot : ¬(m ∈ keys1) := by
        intro hmem
        rcases hstep.2 m hmem with hk | hx | ⟨hge, _⟩
        · exact h3 m hk hmx
        · exact hdisj hx (by simp)
        · omega
      refine ⟨.dobj y m true, m :: keys1, c1, ?_, ?_,
        stepOK_insert (stepOK_mono hstep (fun k hk => List.mem_append_left _ hk)) hmx⟩
      · simp [unpickleL, heq, hatt, link_on_load, hm, hmnot]
      · simpa [canon] using hcanon
  | .record cls attrs, keys, c, h1, h2, h3, h4 => by
    simp only [allAttached] at h1
    simp only [nzXids] at h2 h3 h4 ⊢
    obtain ⟨vs, keys1, c1, heq, hcanon, hstep⟩ := upFieldsL_ok attrs keys c h1 h2 h3 h4
    refine ⟨.record cls vs, c1 :: keys1, c1 + 1, ?_, ?_, stepOK_fresh hstep⟩
    · simp [unpickleL, heq, link_on_load]
    · simp [canon, hcanon]

theorem upListL_ok : ∀ (xs : List PyVal) (keys : List Nat) (c : Nat),
    allAttachedList xs = true → (nzXidsList xs).Nodup →
    (∀ k ∈ keys, k ∉ nzXidsList xs) → (∀ k ∈ nzXidsList xs, k < c) →
    ∃ ys keys1 c1, upListL xs ⟨keys, c⟩ = .ok (ys, ⟨keys1, c1⟩) ∧
      canonList ys = canonList xs ∧ StepOK (nzXidsList xs) keys c keys1 c1
  | [], keys, c, _, _, _, _ =>
    ⟨[], keys, c, by simp [upListL], rfl, stepOK_refl _ _ _⟩
  | x :: xs, keys, c, h1, h2, h3, h4 => by
    simp only [allAttachedList, Bool.and_eq_true] at h1
    obtain ⟨h1x, h1xs⟩ := h1
    simp only [nzXidsList] at h2 h3 h4 ⊢
    rw [List.nodup_append] at h2
    obtain ⟨hnd1, hnd2, hdisj⟩ := h2
    have h3x : ∀ k ∈ keys, k ∉ nzXids x := fun k hk hm =>
      h3 k hk (List.mem_append_left _ hm)
    have h4x : ∀ k ∈ nzXids x, k < c := fun k hk =>
      h4 k (List.mem_append_left _ hk)
    obtain ⟨y, keys1, c1, heq1, hcanon1, hstep1⟩ := unpickleL_ok x keys c h1x hnd1 h3x h4x
    have hnext := stepOK_next hdisj
      (fun k hk hm => h3 k hk (List.mem_append_right _ hm))
      (fun k hk => h4 k (List.mem_append_right _ hk)) hstep1
    obtain ⟨ys, keys2, c2, heq2, hcanon2, hstep2⟩ :=
      upListL_ok xs keys1 c1 h1xs hnd2 hnext.1 hnext.2
    refine ⟨y :: ys, keys2, c2, ?_, ?_, stepOK_comp hstep1 hstep2⟩
    · simp [upListL, heq1, heq2]
    · simp [canonList, hcanon1, hcanon2]

theorem upKVsL_ok : ∀ (kvs : List (PyVal × PyVal)) (keys : List Nat) (c : Nat),
    allAttachedKVs kvs = true → (nzXidsKVs kvs).Nodup →
    (∀ k ∈ keys, k ∉ nzXidsKVs kvs) → (∀ k ∈ nzXidsKVs kvs, k < c) →
    ∃ kvs' keys1 c1, upKVsL kvs ⟨keys, c⟩ = .ok (kvs', ⟨keys1, c1⟩) ∧
      canonKVs kvs' = canonKVs kvs ∧ StepOK (nzXidsKVs kvs) keys c keys1 c1
  | [], keys, c, _, _, _, _ =>
    ⟨[], keys, c, by simp [upKVsL], rfl, stepOK_refl _ _ _⟩
  | (a, b) :: kvs, keys, c, h1, h2, h3, h4 => by
    simp only [allAttachedKVs, Bool.and_eq_true] at h1
    obtain ⟨h1a, h1b, h1r⟩ := h1
    simp only [nzXidsKVs] at h2 h3 h4 ⊢
    rw [List.nodup_append] at h2
    obtain ⟨hnda, h2', hda⟩ := h2
    rw [List.nodup_append] at h2'
    obtain ⟨hndb, hndr, hdbr⟩ := h2'
    have h3a : ∀ k ∈ keys, k ∉ nzXids a := fun k hk hm =>
      h3 k hk (List.mem_append_left _ hm)
    have h4a : ∀ k ∈ nzXids a, k < c := fun k hk =>
      h4 k (List.mem_append_left _ hk)
    obtain ⟨a', keys1, c1, heq1, hcanon1, hstep1⟩ := unpickleL_ok a keys c h1a hnda h3a h4a
    have hnext1 := stepOK_next hda
      (fun k hk hm => h3 k hk (List.mem_append_right _ hm))
      (fun k hk => h4 k (List.mem_append_right _ hk)) hstep1
    have h3b : ∀ k ∈ keys1, k ∉ nzXids b := fun k hk hm =>
      hnext1.1 k hk (List.mem_append_left _ hm)
    have h4b : ∀ k ∈ nzXids b, k < c1 := fun k hk =>
      hnext1.2 k (List.mem_append_left _ hk)
    obtain ⟨b', keys2, c2, heq2, hcanon2, hstep2⟩ := unpickleL_ok b keys1 c1 h1b hndb h3b h4b
    have hnext2 := stepOK_next hdbr
      (fun k hk hm => hnext1.1 k hk (List.mem_append_right _ hm))
      (fun k hk => hnext1.2 k (List.mem_append_right _ hk)) hstep2
    obtain ⟨kvs', keys3, c3, heq3, hcanon3, hstep3⟩ :=
      upKVsL_ok kvs keys2 c2 h1r hndr hnext2.1 hnext2.2
    refine ⟨(a', b') :: kvs', keys3, c3, ?_, ?_,
      stepOK_comp hstep1 (stepOK_comp hstep2 hstep3)⟩
    · simp [upKVsL, heq1, heq2, heq3]
    · simp [canonKVs, hcanon1, hcanon2, hcanon3]

theorem upFieldsL_ok : ∀ (attrs : List (String × PyVal)) (keys : List Nat) (c : Nat),
    allAttachedFields attrs = true → (nzXidsFields attrs).Nodup →
    (∀ k ∈ keys, k ∉ nzXidsFields attrs) → (∀ k ∈ nzXidsFields attrs, k < c) →
    ∃ vs keys1 c1, upFieldsL attrs ⟨keys, c⟩ = .ok (vs, ⟨keys1, c1⟩) ∧
      canonFields vs = canonFields attrs ∧ StepOK (nzXidsFields attrs) keys c keys1 c1
  | [], keys, c, _, _, _, _ =>
    ⟨[], keys, c, by simp [upFieldsL], rfl, stepOK_refl _ _ _⟩
  | (n, v) :: rest, keys, c, h1, h2, h3, h4 => by
    simp only [allAttachedFields, Bool.and_eq_true] at h1
    obtain ⟨h1v, h1r⟩ := h1
    simp only [nzXidsFields] at h2 h3 h4 ⊢
    rw [List.nodup_append] at h2
    obtain ⟨hnd1, hnd2, hdisj⟩ := h2
    have h3v : ∀ k ∈ keys, k ∉ nzXids v := fun k hk hm =>
      h3 k hk (List.mem_append_left _ hm)
    have h4v : ∀ k ∈ nzXids v, k < c := fun k hk =>
      h4 k (List.mem_append_left _ hk)
    obtain ⟨v', keys1, c1, heq1, hcanon1, hstep1⟩ := unpickleL_ok v keys c h1v hnd1 h3v h4v
    have hnext := stepOK_next hdisj
      (fun k hk hm => h3 k hk (List.mem_append_right _ hm))
      (fun k hk => h4 k (List.mem_append_right _ hk)) hstep1
    obtain ⟨vs, keys2, c2, heq2, hcanon2, hstep2⟩ :=
      upFieldsL_ok rest keys1 c1 h1r hnd2 hnext.1 hnext.2
    refine ⟨(n, v') :: vs, keys2, c2, ?_, ?_, stepOK_comp hstep1 hstep2⟩
    · simp [upFieldsL, heq1, heq2]
    · simp [canonFields, hcanon1, hcanon2]

end

mutual

theorem canon_make_pickable : ∀ x : PyVal, canon (make_pickable x) = canon x
  | .pyint _ => rfl
  | .pystr _ => rfl
  | .pybool _ => rfl
  | .pybytes _ => rfl
  | .pynone => rfl
  | .pytuple _ => rfl
  | .pyfrozenset _ => rfl
  | .pylist xs => by simp only [make_pickable, canon, canon_mpList xs]
  | .pyset xs => by simp only [make_pickable, canon, canon_mpList xs]
  | .pydict kvs => by simp only [make_pickable, canon, canon_mpKVs kvs]
  | .pybytearray _ => by simp only [make_pickable, canon]
  | .dobj _ _ _ => rfl
  | .record _ _ => rfl

theorem canon_mpList : ∀ xs : List PyVal, canonList (mpList xs) = canonList xs
  | [] => rfl
  | x :: xs => by
    simp only [mpList, canonList, canon_make_pickable x, canon_mpList xs]

theorem canon_mpKVs : ∀ kvs : List (PyVal × PyVal), canonKVs (mpKVs kvs) = canonKVs kvs
  | [] => rfl
  | (k, v) :: kvs => by
    simp only [mpKVs, canonKVs, canon_make_pickable k, canon_make_pickable v,
      canon_mpKVs kvs]

end

mutual

theorem allAttached_mp : ∀ x : PyVal, allAttached (make_pickable x) = allAttached x
  | .pyint _ => rfl
  | .pystr _ => rfl
  | .pybool _ => rfl
  | .pybytes _ => rfl
  | .pynone => rfl
  | .pytuple _ => rfl
  | .pyfrozenset _ => rfl
  | .pylist xs => by
    simp only [make_pickable, allAttached, Bool.true_and, allAttachedList_mp xs]
  | .pyset xs => by
    simp only [make_pickable, allAttached, Bool.true_and, allAttachedList_mp xs]
  | .pydict kvs => by
    simp only [make_pickable, allAttached, Bool.true_and, allAttachedKVs_mp kvs]
  | .pybytearray _ => by
    simp only [make_pickable, allAttached, Bool.true_and]
  | .dobj _ _ _ => rfl
  | .record _ _ => rfl

theorem allAttachedList_mp : ∀ xs : List PyVal,
    allAttachedList (mpList xs) = allAttachedList xs
  | [] => rfl
  | x :: xs => by
    simp only [mpList, allAttachedList, allAttached_mp x, allAttachedList_mp xs]

theorem allAttachedKVs_mp : ∀ kvs : List (PyVal × PyVal),
    allAttachedKVs (mpKVs kvs) = allAttachedKVs kvs
  | [] => rfl
  | (k, v) :: kvs => by
    simp only [mpKVs, allAttachedKVs, allAttached_mp k, allAttached_mp v,
      allAttachedKVs_mp kvs]

end

mutual

theorem nzXids_mp : ∀ x : PyVal, nzXids (make_pickable x) = nzXids x
  | .pyint _ => rfl
  | .pystr _ => rfl
  | .pybool _ => rfl
  | .pybytes _ => rfl
  | .pynone => rfl
  | .pytuple _ => rfl
  | .pyfrozenset _ => rfl
  | .pylist xs => by
    simp only [make_pickable, nzXids, eq_self_iff_true, ite_true,
      List.append_nil, nzXidsList_mp xs]
  | .pyset xs => by
    simp only [make_pickable, nzXids, eq_self_iff_true, ite_true,
      List.append_nil, nzXidsList_mp xs]
  | .pydict kvs => by
    simp only [make_pickable, nzXids, eq_self_iff_true, ite_true,
      List.append_nil, nzXidsKVs_mp kvs]
  | .pybytearray _ => by
    simp only [make_pickable, nzXids, eq_self_iff_true, ite_true, List.append_nil]
  | .dobj _ _ _ => rfl
  | .record _ _ => rfl

theorem nzXidsList_mp : ∀ xs : List PyVal, nzXidsList (mpList xs) = nzXidsList xs
  | [] => rfl
  | x :: xs => by
    simp only [mpList, nzXidsList, nzXids_mp x, nzXidsList_mp xs]

theorem nzXidsKVs_mp : ∀ kvs : List (PyVal × PyVal),
    nzXidsKVs (mpKVs kvs) = nzXidsKVs kvs
  | [] => rfl
  | (k, v) :: kvs => by
    simp only [mpKVs, nzXidsKVs, nzXids_mp k, nzXids_mp v, nzXidsKVs_mp kvs]

end

/-- C4 (amended): provided every `DObject` proxy in `x` is attached, the
stored non-zero xids are pairwise distinct, and the load runs with a fresh
empty staging map (as `Manager._load` arranges) under an xid counter
exceeding every stored xid (the Manager invariant for ids it assigned
itself), `load (dump x)` succeeds and is semantically equal to `x` (a
`DObject` comparing by its `subobj`).  Plain mutable lists, sets, dicts
and bytearrays are promoted to attached distributed proxies before
encoding, while plain immutable scalars and tuples are serialised as-is.
Without these provisos the load raises — see the counterexample. -/
theorem load_dump_roundtrip (x : PyVal) (c0 : Nat)
    (hatt : allAttached x = true)
    (hnd : (nzXids x).Nodup)
    (hlt : ∀ k ∈ nzXids x, k < c0) :
    (∃ y st', unpickleL (make_pickable x) ⟨[], c0⟩ = .ok (y, st') ∧ semEq y x) ∧
    (∀ xs, make_pickable (.pylist xs) = .dobj (.pylist (mpList xs)) 0 true) ∧
    (∀ xs, make_pickable (.pyset xs) = .dobj (.pyset (mpList xs)) 0 true) ∧
    (∀ kvs, make_pickable (.pydict kvs) = .dobj (.pydict (mpKVs kvs)) 0 true) ∧
    (∀ bs, make_pickable (.pybytearray bs) = .dobj (.pybytearray bs) 0 true) ∧
    (∀ n, make_pickable (.pyint n) = .pyint n) ∧
    (∀ s, make_pickable (.pystr s) = .pystr s) ∧
    (∀ xs, make_pickable (.pytuple xs) = .pytuple xs) := by
  refine ⟨?_, fun _ => rfl, fun _ => rfl, fun _ => rfl, fun _ => rfl,
    fun _ => rfl, fun _ => rfl, fun _ => rfl⟩
  have h1 : allAttached (make_pickable x) = true := by rw [allAttached_mp]; exact hatt
  have h2 : (nzXids (make_pickable x)).Nodup := by rw [nzXids_mp]; exact hnd
  have h3 : ∀ k ∈ ([] : List Nat), k ∉ nzXids (make_pickable x) := by simp
  have h4 : ∀ k ∈ nzXids (make_pickable x), k < c0 := by rw [nzXids_mp]; exact hlt
  obtain ⟨y, keys1, c1, heq, hcanon, _⟩ :=
    unpickleL_ok (make_pickable x) [] c0 h1 h2 h3 h4
  refine ⟨y, ⟨keys1, c1⟩, heq, ?_⟩
  unfold semEq
  rw [hcanon, canon_make_pickable]

/-- Witness for C4's amended theorem: a plain list holding a scalar and an
attached proxy with stored xid `3` round-trips through a fresh staging map
with counter `4`. -/
theorem load_dump_roundtrip_witness :
    allAttached (.pylist [.pyint 1, .dobj (.pylist [.pyint 2]) 3 true]) = true ∧
    (nzXids (.pylist [.pyint 1, .dobj (.pylist [.pyint 2]) 3 true])).Nodup ∧
    (∀ k ∈ nzXids (.pylist [.pyint 1, .dobj (.pylist [.pyint 2]) 3 true]), k < 4) ∧
    (∃ y st',
      unpickleL (make_pickable (.pylist [.pyint 1, .dobj (.pylist [.pyint 2]) 3 true]))
        ⟨[], 4⟩ = .ok (y, st') ∧
      semEq y (.pylist [.pyint 1, .dobj (.pylist [.pyint 2]) 3 true])) := by
  refine ⟨by decide, by decide, by decide, ?_⟩
  exact (load_dump_roundtrip (.pylist [.pyint 1, .dobj (.pylist [.pyint 2]) 3 true]) 4
    (by decide) (by decide) (by decide)).1

/-- Counterexample to C4 as stated: `load (dump x)` does not equal `x` for
every encodable `x` — it raises.  An explicitly constructed, never-linked
`DList` (null `dmgr`, `xid = 0`) passes through `make_pickable` unchanged
and its `__setstate__` runs `None.link`, an `AttributeError`; and
reloading a linked proxy (stored xid `3`) through the public
`Manager.load`, whose staging map still keys `3`, hits `Manager.link`'s
duplicate-ID `ValueError`. -/
theorem load_dump_raises_counterexample :
    make_pickable (PyVal.dobj (.pylist [.pyint 1]) 0 false) =
      PyVal.dobj (.pylist [.pyint 1]) 0 false ∧
    unpickleL (PyVal.dobj (.pylist [.pyint 1]) 0 false) ⟨[], 1⟩ = .error () ∧
    unpickleL (PyVal.dobj (.pylist [.pyint 1]) 3 true) ⟨[3], 10⟩ = .error () := by
  refine ⟨rfl, rfl, rfl⟩

end Tosc
